import Mathlib

/-!
Verification of the time-series data fetcher (src/config.py, src/data_fetcher.py).

Shallow embedding conventions:
* A Python `datetime` is modelled by `PyDatetime`: `wall` is the wall-clock
  reading in microseconds on a linear timeline (proleptic-Gregorian ordinal
  converted to microseconds), `tz` is the UTC offset in minutes when the value
  is timezone-aware (`timezone.utc` is `some 0`) and `none` when offset-naive.
  Python compares two aware datetimes by instant (wall minus offset) and two
  naive datetimes by wall-clock; both are `dtKey` comparisons.  Comparing a
  naive with an aware datetime raises `TypeError` in Python; no claim below
  exercises that case, and `dtKey` treats a missing offset as zero.
* The database is static: a table is the list of its rows in the deterministic
  order produced by `ORDER BY order_fields` (the order fields begin with the
  time field and end in the primary key, a total order, so the result sequence
  of any query over the table is a fixed list).  The raw SQL predicate string
  `where_conditions` is interpreted by the data store; it is modelled as an
  opaque Boolean predicate on rows.
* Python loops are written with an explicit fuel argument so that every
  definition is executable; callers pass fuel that provably suffices, and a
  `none` result models non-termination of the source loop.
* Errors raised by the Python code become `Except`/error values; the distinct
  marker `Err.loopForever` records that the source would not return at all.
-/

structure PyDatetime where
  wall : Int
  tz : Option Int
  deriving DecidableEq, Repr

def dtKey (d : PyDatetime) : Int := d.wall - 60000000 * (d.tz.getD 0)

def dtMin (a b : PyDatetime) : PyDatetime := if dtKey b < dtKey a then b else a

def addMinutes (d : PyDatetime) (m : Int) : PyDatetime :=
  { d with wall := d.wall + 60000000 * m }

inductive Err where
  | unsupportedTable (t : String)
  | unparseableTime (s : String)
  | loopForever
  deriving DecidableEq, Repr

instance {ε α : Type} [DecidableEq ε] [DecidableEq α] : DecidableEq (Except ε α) := fun a b =>
  match a, b with
  | .ok x, .ok y =>
    if h : x = y then .isTrue (congrArg Except.ok h)
    else .isFalse (fun hc => h (Except.ok.inj hc))
  | .error x, .error y =>
    if h : x = y then .isTrue (congrArg Except.error h)
    else .isFalse (fun hc => h (Except.error.inj hc))
  | .ok _, .error _ => .isFalse (fun hc => Except.noConfusion hc)
  | .error _, .ok _ => .isFalse (fun hc => Except.noConfusion hc)

/-! ## Time Parser (src/data_fetcher.py, parse_time; src/config.py, TIME_FORMATS)

`datetime.strptime` is a library function; it is modelled here restricted to
the directives actually occurring in TIME_FORMATS (%Y %m %d %H %M %S %f).
None of those directives carries timezone information, so every successful
parse yields an offset-naive datetime, which is what the model constructs. -/

def digitVal (c : Char) : Nat := c.toNat - 48

def takeDigits : Nat → List Char → (List Char × List Char)
  | 0, cs => ([], cs)
  | _ + 1, [] => ([], [])
  | n + 1, c :: cs =>
    if c.isDigit then
      let p := takeDigits n cs
      (c :: p.1, p.2)
    else ([], c :: cs)

def digitsToNat (ds : List Char) : Nat := ds.foldl (fun a c => 10 * a + digitVal c) 0

def readNum (maxw : Nat) (cs : List Char) : Option (Nat × Nat × List Char) :=
  let p := takeDigits maxw cs
  if p.1.isEmpty then none else some (digitsToNat p.1, p.1.length, p.2)

structure ParsedFields where
  y : Nat := 1900
  mo : Nat := 1
  d : Nat := 1
  h : Nat := 0
  mi : Nat := 0
  s : Nat := 0
  us : Nat := 0
  deriving DecidableEq, Repr

def runFormat : List Char → List Char → ParsedFields → Option ParsedFields
  | [], [], acc => some acc
  | [], _ :: _, _ => none
  | '%' :: d :: fmt, cs, acc =>
    (match d with
     | 'Y' => (readNum 4 cs).bind (fun p => runFormat fmt p.2.2 { acc with y := p.1 })
     | 'm' => (readNum 2 cs).bind (fun p => runFormat fmt p.2.2 { acc with mo := p.1 })
     | 'd' => (readNum 2 cs).bind (fun p => runFormat fmt p.2.2 { acc with d := p.1 })
     | 'H' => (readNum 2 cs).bind (fun p => runFormat fmt p.2.2 { acc with h := p.1 })
     | 'M' => (readNum 2 cs).bind (fun p => runFormat fmt p.2.2 { acc with mi := p.1 })
     | 'S' => (readNum 2 cs).bind (fun p => runFormat fmt p.2.2 { acc with s := p.1 })
     | 'f' => (readNum 6 cs).bind (fun p => runFormat fmt p.2.2 { acc with us := p.1 * 10 ^ (6 - p.2.1) })
     | _ => none)
  | ['%'], _, _ => none
  | c :: fmt, i :: cs, acc => if c = i then runFormat fmt cs acc else none
  | _ :: _, [], _ => none

def isLeapYear (y : Nat) : Bool := y % 4 = 0 && (y % 100 ≠ 0 || y % 400 = 0)

def daysInMonth (y mo : Nat) : Nat :=
  if mo = 2 then (if isLeapYear y then 29 else 28)
  else if mo = 4 || mo = 6 || mo = 9 || mo = 11 then 30
  else 31

def daysBeforeYear (y : Nat) : Nat :=
  365 * (y - 1) + (y - 1) / 4 - (y - 1) / 100 + (y - 1) / 400

def daysBeforeMonth (y mo : Nat) : Nat :=
  (List.range (mo - 1)).foldl (fun a k => a + daysInMonth y (k + 1)) 0

def toOrdinal (y mo d : Nat) : Nat := daysBeforeYear y + daysBeforeMonth y mo + d

def mkWall (y mo d h mi s us : Nat) : Int :=
  ((toOrdinal y mo d * 86400 + h * 3600 + mi * 60 + s) * 1000000 + us : Nat)

def validFields (f : ParsedFields) : Bool :=
  1 ≤ f.y && f.y ≤ 9999 && 1 ≤ f.mo && f.mo ≤ 12 && 1 ≤ f.d && f.d ≤ daysInMonth f.y f.mo
    && f.h ≤ 23 && f.mi ≤ 59 && f.s ≤ 59

def strptime (s fmt : String) : Option PyDatetime :=
  match runFormat fmt.toList s.toList {} with
  | some f =>
    if validFields f then some { wall := mkWall f.y f.mo f.d f.h f.mi f.s f.us, tz := none }
    else none
  | none => none

def TIME_FORMATS : List String :=
  ["%Y-%m-%d %H:%M:%S", "%Y-%m-%d", "%Y-%m-%dT%H:%M:%S", "%Y-%m-%dT%H:%M:%SZ",
   "%Y-%m-%d %H:%M:%S.%f"]

inductive TimeInput where
  | dt (d : PyDatetime)
  | str (s : String)
  deriving DecidableEq, Repr

def tryFormats : List String → String → Except Err PyDatetime
  | [], s => .error (.unparseableTime s)
  | fmt :: rest, s =>
    match strptime s fmt with
    | some d => .ok (if d.tz.isNone then { d with tz := some 0 } else d)
    | none => tryFormats rest s

def parse_time : TimeInput → Except Err PyDatetime
  | .dt d => .ok d
  | .str s => tryFormats TIME_FORMATS s

/-! ## Window Generator (src/data_fetcher.py, generate_time_windows)

The source loop `while current_time < end_dt` has no guard on the configured
duration; the fuel argument makes the model total, and a `none` result means
the source loop runs forever (it provably does for every fuel value when the
duration is non-positive and the range is non-empty; see the C4 theorems). -/

def windowsLoopAux (interval : Int) (edt : PyDatetime) :
    Nat → PyDatetime → Option (List (PyDatetime × PyDatetime))
  | 0, _ => none
  | fuel + 1, cur =>
    if dtKey cur < dtKey edt then
      let wend := dtMin (addMinutes cur interval) edt
      match windowsLoopAux interval edt fuel wend with
      | some ws => some ((cur, wend) :: ws)
      | none => none
    else some []

def genFuel (s e : PyDatetime) : Nat := (dtKey e - dtKey s).toNat + 1

def generate_time_windows (interval : Int) (st et : TimeInput) :
    Except Err (List (PyDatetime × PyDatetime)) :=
  match parse_time st, parse_time et with
  | .ok sdt, .ok edt =>
    match windowsLoopAux interval edt (genFuel sdt edt) sdt with
    | some ws => .ok ws
    | none => .error .loopForever
  | .error e, _ => .error e
  | _, .error e => .error e

/-! ## Table Registry (src/config.py, TABLE_CONFIGS) -/

structure TableConfig where
  time_field : String
  primary_key : String
  order_fields : List String
  description : String
  deriving DecidableEq, Repr

def TABLE_CONFIGS : List (String × TableConfig) :=
  [("tweets", ⟨"created_at_ts", "tweet_id", ["created_at_ts", "tweet_id"], "推文数据表"⟩),
   ("replies", ⟨"created_at_ts", "tweet_id", ["created_at_ts", "tweet_id"], "回复数据表"⟩),
   ("users", ⟨"updated_at", "user_id", ["updated_at", "user_id"], "用户数据表"⟩),
   ("followers", ⟨"follower_created_at_ts", "follower_id",
     ["follower_created_at_ts", "user_id", "follower_id"], "粉丝关系表"⟩),
   ("following", ⟨"following_created_at_ts", "following_id",
     ["following_created_at_ts", "user_id", "following_id"], "关注关系表"⟩),
   ("quoted_status_summary", ⟨"created_at_ts", "tweet_id",
     ["created_at_ts", "tweet_id"], "引用推文摘要表"⟩),
   ("retweeted_status_summary", ⟨"created_at_ts", "tweet_id",
     ["created_at_ts", "tweet_id"], "转发推文摘要表"⟩),
   ("kol_task_status", ⟨"updated_at", "user_id", ["updated_at", "user_id"], "KOL任务状态表"⟩)]

def lookupTable (t : String) : Option TableConfig :=
  (TABLE_CONFIGS.find? (fun p => p.1 == t)).map Prod.snd

def timeFieldOf (t : String) : String :=
  match lookupTable t with
  | some cfg => cfg.time_field
  | none => ""

/-! ## Data model

A `Row` is one record of a table: `time` is the value of the table's time
field as an instant on the same microsecond timeline as `dtKey`, and `rid` is
an opaque identity standing for the remaining columns.  A `Database` maps a
table name to the full list of the table's rows in `ORDER BY order_fields`
order (a deterministic total order, see the file header).  The raw
`where_conditions` SQL fragment is modelled as the opaque predicate the data
store evaluates on each row. -/

structure Row where
  time : Int
  rid : Nat
  deriving DecidableEq, Repr

def Database : Type := String → List Row

def RowPred : Type := Row → Bool

def selectedRows (l : List Row) (lo hi : Int) (pred : RowPred) : List Row :=
  l.filter (fun r => decide (lo ≤ r.time) && decide (r.time < hi) && pred r)

/-- The result sequence of the range query issued by both `get_table_count`
(src/data_fetcher.py lines 112-123, as its cardinality) and `fetch_data_chunk`
(lines 149-167, as one LIMIT/OFFSET page of it): check the table registry,
parse both bounds, then filter the table by
`time_field >= start AND time_field < end AND (where_conditions)`. -/
def rangeRows (db : Database) (t : String) (st et : TimeInput) (pred : RowPred) :
    Except Err (List Row) :=
  if (lookupTable t).isNone then .error (.unsupportedTable t)
  else
    match parse_time st, parse_time et with
    | .ok sdt, .ok edt => .ok (selectedRows (db t) (dtKey sdt) (dtKey edt) pred)
    | .error e, _ => .error e
    | _, .error e => .error e

/-- src/data_fetcher.py lines 97-123. -/
def get_table_count (db : Database) (t : String) (st et : TimeInput) (pred : RowPred) :
    Except Err Nat :=
  match rangeRows db t st et pred with
  | .ok rows => .ok rows.length
  | .error e => .error e

/-- src/data_fetcher.py lines 125-167 (LIMIT `lim` OFFSET `off` over the
ordered, filtered result sequence). -/
def fetch_data_chunk (db : Database) (t : String) (st et : TimeInput)
    (off lim : Nat) (pred : RowPred) : Except Err (List Row) :=
  match rangeRows db t st et pred with
  | .ok rows => .ok ((rows.drop off).take lim)
  | .error e => .error e

/-! ## Chunk envelopes

`query_time` (wall-clock timestamp taken at emission) is omitted from the
model.  A chunk is paired with a `Bool` recording whether the orchestrator
executed `asyncio.sleep(0.01)` after yielding it (the pacing pause). -/

structure FlatChunk where
  chunk_index : Nat
  chunk_offset : Nat
  chunk_size : Nat
  total_count : Nat
  progress : ℚ
  data : List Row
  table_name : String
  time_field : String
  deriving DecidableEq, Repr

structure WindowChunk where
  window_index : Nat
  window_start : PyDatetime
  window_end : PyDatetime
  chunk_offset : Nat
  chunk_size : Nat
  total_records_so_far : Nat
  data : List Row
  table_name : String
  time_field : String
  deriving DecidableEq, Repr

structure StreamOut (C : Type) where
  queries : Nat
  items : List (C × Bool)
  err : Option Err
  deriving DecidableEq, Repr

def chunksOf {C : Type} (out : StreamOut C) : List C := out.items.map Prod.fst

/-! ## Streaming Orchestrator, flat mode (src/data_fetcher.py, stream_data_by_chunks)

The page loop `while offset < total_count` is written with fuel; each
iteration that yields a chunk advances `offset` by at least one (the page is
non-empty), and an iteration that fetches an empty page breaks, so fuel
`total + 1` provably suffices at the call site.  The first component of the
result counts the SELECT queries issued by the loop; `sleep` is executed
unconditionally after every yielded chunk (line 293). -/

def chunksLoop (rows : List Row) (csize total : Nat) (tname tfield : String) :
    Nat → Nat → Nat → (Nat × List (FlatChunk × Bool))
  | 0, _, _ => (0, [])
  | fuel + 1, off, cindex =>
    if off < total then
      let cdata := (rows.drop off).take csize
      if cdata.isEmpty then (1, [])
      else
        let c : FlatChunk :=
          { chunk_index := cindex + 1, chunk_offset := off, chunk_size := cdata.length,
            total_count := total, progress := ((off + cdata.length : Nat) : ℚ) / (total : ℚ),
            data := cdata, table_name := tname, time_field := tfield }
        let rest := chunksLoop rows csize total tname tfield fuel (off + csize) (cindex + 1)
        (rest.1 + 1, (c, true) :: rest.2)
    else (0, [])

def stream_data_by_chunks (db : Database) (t : String) (st et : TimeInput)
    (pred : RowPred) (csize : Nat) : StreamOut FlatChunk :=
  match rangeRows db t st et pred with
  | .error e => ⟨0, [], some e⟩
  | .ok rows =>
    let total := rows.length
    if total = 0 then ⟨1, [], none⟩
    else
      let p := chunksLoop rows csize total t (timeFieldOf t) (total + 1) 0 0
      ⟨1 + p.1, p.2, none⟩

/-! ## Streaming Orchestrator, windowed mode
(src/data_fetcher.py, stream_data_by_time_windows)

Structure of the source: generate all windows up front, then for each window
(1-based `enumerate` index) resolve its count with `get_table_count` — this is
where an unknown table raises, so the check is modelled at the head of each
window iteration — skip the window if the count is zero, otherwise page
through the window with the offset reset to zero, accumulating the global
running total `total_records`.  The pacing pause after a yield happens only
when `chunk_size >= self.chunk_size` (line 234). -/

def sumWindowSizes (items : List (WindowChunk × Bool)) : Nat :=
  (items.map (fun p => p.1.chunk_size)).sum

def windowChunksLoop (rows : List Row) (csize wcount widx : Nat) (ws we : PyDatetime)
    (tname tfield : String) : Nat → Nat → Nat → (Nat × List (WindowChunk × Bool))
  | 0, _, _ => (0, [])
  | fuel + 1, off, tot =>
    if off < wcount then
      let cdata := (rows.drop off).take csize
      if cdata.isEmpty then (1, [])
      else
        let c : WindowChunk :=
          { window_index := widx, window_start := ws, window_end := we,
            chunk_offset := off, chunk_size := cdata.length,
            total_records_so_far := tot + cdata.length,
            data := cdata, table_name := tname, time_field := tfield }
        let rest := windowChunksLoop rows csize wcount widx ws we tname tfield
          fuel (off + csize) (tot + cdata.length)
        (rest.1 + 1, (c, decide (csize ≤ cdata.length)) :: rest.2)
    else (0, [])

def windowsStreamLoop (db : Database) (t : String) (pred : RowPred) (csize : Nat) :
    List (PyDatetime × PyDatetime) → Nat → Nat → StreamOut WindowChunk
  | [], _, _ => ⟨0, [], none⟩
  | (a, b) :: rest, i, tot =>
    if (lookupTable t).isNone then ⟨0, [], some (.unsupportedTable t)⟩
    else
      let wrows := selectedRows (db t) (dtKey a) (dtKey b) pred
      let wcount := wrows.length
      if wcount = 0 then
        let out := windowsStreamLoop db t pred csize rest (i + 1) tot
        ⟨1 + out.queries, out.items, out.err⟩
      else
        let p := windowChunksLoop wrows csize wcount i a b t (timeFieldOf t)
          (wcount + 1) 0 tot
        let out := windowsStreamLoop db t pred csize rest (i + 1) (tot + sumWindowSizes p.2)
        ⟨1 + p.1 + out.queries, p.2 ++ out.items, out.err⟩

def stream_data_by_time_windows (db : Database) (t : String) (st et : TimeInput)
    (pred : RowPred) (csize : Nat) (interval : Int) : StreamOut WindowChunk :=
  match generate_time_windows interval st et with
  | .ok wins => windowsStreamLoop db t pred csize wins 1 0
  | .error e => ⟨0, [], some e⟩

def sumFlatSizes (items : List (FlatChunk × Bool)) : Nat :=
  (items.map (fun p => p.1.chunk_size)).sum

/-- The running-total invariant of windowed mode: starting from `base`, each
chunk's `total_records_so_far` is the base plus its own size, and the rest of
the sequence continues from that new base. -/
def runningFromW (base : Nat) : List WindowChunk → Prop
  | [] => True
  | c :: rest => c.total_records_so_far = base + c.chunk_size ∧
      runningFromW (base + c.chunk_size) rest

/-! ## Fetcher construction (src/data_fetcher.py lines 21-36,
src/config.py DEFAULT_CONFIG)

`x or default` in Python falls back to the default exactly when `x` is falsy;
for an optional integer argument the falsy values are `None` and `0`. -/

def pyOrInt (x : Option Int) (dflt : Int) : Int :=
  match x with
  | none => dflt
  | some v => if v = 0 then dflt else v

structure FetcherConfig where
  chunk_size : Int
  time_interval_minutes : Int
  max_connections : Int
  deriving DecidableEq, Repr

def initFetcher (c ti mc : Option Int) : FetcherConfig :=
  { chunk_size := pyOrInt c 1000,
    time_interval_minutes := pyOrInt ti 60,
    max_connections := pyOrInt mc 3 }

/-! Concrete databases used by examples, witnesses and counterexamples. -/

def demoDb : Database := fun t => if t == "tweets" then
  [⟨0, 0⟩, ⟨1, 1⟩, ⟨2, 2⟩, ⟨3, 3⟩, ⟨4, 4⟩] else []

def truePred : RowPred := fun _ => true

def bigRows : List Row := List.replicate 2500 { time := 0, rid := 0 }

def bigDb : Database := fun t => if t == "tweets" then bigRows else []

/-! ## Export Sink, line-delimited format (src/data_fetcher.py lines 338-342)

The jsonl branch of `export_to_file` writes `json.dumps(chunk)` plus a
newline for each chunk the stream yields — one serialized envelope per line.
`json.dumps`/`json.loads` are library collaborators (excluded from the core
by the spec's scope); their composition is modelled at the level of a JSON
value tree: `JVal` is a JSON document, a file in jsonl format is a list of
documents (one per line), and serializing then re-reading a document is the
identity on the tree.  `jDt` stands for the ISO-8601 string rendering of a
datetime produced by `isoformat()` (an injective rendering, carried
abstractly with its instant and offset). -/

inductive JVal where
  | jInt (i : Int)
  | jRat (q : ℚ)
  | jStr (s : String)
  | jDt (wall : Int) (tz : Option Int)
  | jArr (xs : List JVal)
  | jObj (fs : List (String × JVal))

def encodeRow (r : Row) : JVal :=
  .jObj [("time", .jInt r.time), ("rid", .jInt (r.rid : Int))]

def decodeRow : JVal → Option Row
  | .jObj [("time", .jInt tv), ("rid", .jInt rv)] => some ⟨tv, rv.toNat⟩
  | _ => none

def encodeWindowChunk (c : WindowChunk) : JVal :=
  .jObj [("window_index", .jInt (c.window_index : Int)),
         ("window_start", .jDt c.window_start.wall c.window_start.tz),
         ("window_end", .jDt c.window_end.wall c.window_end.tz),
         ("chunk_offset", .jInt (c.chunk_offset : Int)),
         ("chunk_size", .jInt (c.chunk_size : Int)),
         ("total_records_so_far", .jInt (c.total_records_so_far : Int)),
         ("data", .jArr (c.data.map encodeRow)),
         ("metadata", .jObj [("table_name", .jStr c.table_name),
                             ("time_field", .jStr c.time_field)])]

def decodeWindowChunk : JVal → Option WindowChunk
  | .jObj [("window_index", .jInt wi), ("window_start", .jDt sw sz),
           ("window_end", .jDt ew ez), ("chunk_offset", .jInt co),
           ("chunk_size", .jInt csz), ("total_records_so_far", .jInt tr),
           ("data", .jArr ds),
           ("metadata", .jObj [("table_name", .jStr tn), ("time_field", .jStr tf)])] =>
    (match ds.mapM decodeRow with
     | some rows => some ⟨wi.toNat, ⟨sw, sz⟩, ⟨ew, ez⟩, co.toNat, csz.toNat,
         tr.toNat, rows, tn, tf⟩
     | none => none)
  | _ => none

def encodeFlatChunk (c : FlatChunk) : JVal :=
  .jObj [("chunk_index", .jInt (c.chunk_index : Int)),
         ("chunk_offset", .jInt (c.chunk_offset : Int)),
         ("chunk_size", .jInt (c.chunk_size : Int)),
         ("total_count", .jInt (c.total_count : Int)),
         ("progress", .jRat c.progress),
         ("data", .jArr (c.data.map encodeRow)),
         ("metadata", .jObj [("table_name", .jStr c.table_name),
                             ("time_field", .jStr c.time_field)])]

def decodeFlatChunk : JVal → Option FlatChunk
  | .jObj [("chunk_index", .jInt ci), ("chunk_offset", .jInt co),
           ("chunk_size", .jInt csz), ("total_count", .jInt tc),
           ("progress", .jRat pr), ("data", .jArr ds),
           ("metadata", .jObj [("table_name", .jStr tn), ("time_field", .jStr tf)])] =>
    (match ds.mapM decodeRow with
     | some rows => some ⟨ci.toNat, co.toNat, csz.toNat, tc.toNat, pr, rows, tn, tf⟩
     | none => none)
  | _ => none

/-- The jsonl branch of `export_to_file` in windowed mode: one serialized
envelope per line of the output file. -/
def export_jsonl_windows (out : StreamOut WindowChunk) : List JVal :=
  (chunksOf out).map encodeWindowChunk

/-- The jsonl branch of `export_to_file` in flat mode. -/
def export_jsonl_flat (out : StreamOut FlatChunk) : List JVal :=
  (chunksOf out).map encodeFlatChunk

/-- Numeral-level view of the flat page loop: the envelope fields of each
chunk depend on the row list only through its length, so the loop's output
can be mirrored by arithmetic on lengths alone (used to evaluate the
2500-row example without materializing the list). -/
def chunksView (total csize : Nat) : Nat → Nat → Nat → List (Nat × Nat × Nat × Nat × ℚ)
  | 0, _, _ => []
  | fuel + 1, off, ci =>
    if off < total then
      if min csize (total - off) = 0 then []
      else
        (ci + 1, off, min csize (total - off), total,
          ((off + min csize (total - off) : Nat) : ℚ) / (total : ℚ))
          :: chunksView total csize fuel (off + csize) (ci + 1)
    else []

example : generate_time_windows 60 (.dt ⟨0, some 0⟩) (.dt ⟨7200000000, some 0⟩)
    = .ok [(⟨0, some 0⟩, ⟨3600000000, some 0⟩),
           (⟨3600000000, some 0⟩, ⟨7200000000, some 0⟩)] := by
  decide

example : parse_time (.str ("2024-01-02")) =
    .ok ⟨(toOrdinal 2024 1 2 * 86400 : Nat) * 1000000, some 0⟩ := by decide

example : get_table_count demoDb "tweets" (.dt ⟨0, some 0⟩) (.dt ⟨5, some 0⟩) truePred
    = .ok 5 := by decide

example : (stream_data_by_chunks demoDb "tweets" (.dt ⟨0, some 0⟩) (.dt ⟨5, some 0⟩)
    truePred 2).items.map (fun p => (p.1.chunk_index, p.1.chunk_offset, p.1.chunk_size, p.2))
    = [(1, 0, 2, true), (2, 2, 2, true), (3, 4, 1, true)] := by decide

example : (stream_data_by_time_windows demoDb "tweets" (.dt ⟨0, some 0⟩)
    (.dt ⟨120000000, some 0⟩) truePred 2 1).items.map
      (fun p => (p.1.window_index, p.1.chunk_offset, p.1.chunk_size,
        p.1.total_records_so_far, p.2))
    = [(1, 0, 2, 2, true), (1, 2, 2, 4, true), (1, 4, 1, 5, false)] := by decide

/-! ## Window generator: main correctness lemma -/

theorem dtKey_addMinutes (cur : PyDatetime) (i : Int) :
    dtKey (addMinutes cur i) = dtKey cur + 60000000 * i := by
  simp only [dtKey, addMinutes]
  ring

theorem tz_addMinutes (cur : PyDatetime) (i : Int) : (addMinutes cur i).tz = cur.tz := rfl

theorem dtKey_dtMin (a b : PyDatetime) : dtKey (dtMin a b) = min (dtKey a) (dtKey b) := by
  unfold dtMin
  split <;> omega

theorem dtEq_of_key_tz (a b : PyDatetime) (htz : a.tz = b.tz) (hk : dtKey a = dtKey b) :
    a = b := by
  obtain ⟨w1, t1⟩ := a
  obtain ⟨w2, t2⟩ := b
  simp only at htz
  subst htz
  simp only [dtKey] at hk
  simp only [PyDatetime.mk.injEq, and_true]
  omega

theorem ceilStep_last (r Dn : Nat) (hDn : 0 < Dn) (h1 : 1 ≤ r) (h2 : r ≤ Dn) :
    (r + Dn - 1) / Dn = 1 := by
  apply Nat.div_eq_of_lt_le
  · omega
  · omega

theorem ceilStep_mid (r Dn : Nat) (hDn : 0 < Dn) (h : Dn < r) :
    (r + Dn - 1) / Dn = ((r - Dn) + Dn - 1) / Dn + 1 := by
  rw [show r + Dn - 1 = ((r - Dn) + Dn - 1) + Dn by omega]
  exact Nat.add_div_right _ hDn

theorem windowsLoopAux_spec (i : Int) (hi : 0 < i) (e : PyDatetime) :
    ∀ (fuel : Nat) (cur : PyDatetime), cur.tz = e.tz →
      (dtKey e - dtKey cur).toNat < fuel →
      ∃ ws, windowsLoopAux i e fuel cur = some ws ∧
        (ws = [] ↔ dtKey e ≤ dtKey cur) ∧
        ws.length = ((dtKey e - dtKey cur).toNat + (60000000 * i).toNat - 1)
          / (60000000 * i).toNat ∧
        (∀ w ∈ ws, dtKey w.1 < dtKey w.2 ∧ dtKey cur ≤ dtKey w.1 ∧
          w.1.tz = e.tz ∧ w.2.tz = e.tz) ∧
        List.Chain' (fun a b => a.2 = b.1) ws ∧
        List.Pairwise (fun w1 w2 => dtKey w1.2 ≤ dtKey w2.1) ws ∧
        (∀ hne : ws ≠ [], (ws.head hne).1 = cur ∧ (ws.getLast hne).2 = e) ∧
        (∀ x : Int, (dtKey cur ≤ x ∧ x < dtKey e) ↔
          ∃ w ∈ ws, dtKey w.1 ≤ x ∧ x < dtKey w.2) := by
  have hD : (0 : Int) < 60000000 * i := by
    have : (0 : Int) < 60000000 := by norm_num
    exact mul_pos this hi
  intro fuel
  induction fuel with
  | zero => intro cur _ hf; omega
  | succ n ih =>
    intro cur htz hf
    by_cases hlt : dtKey cur < dtKey e
    · have hkadd : dtKey (addMinutes cur i) = dtKey cur + 60000000 * i :=
        dtKey_addMinutes cur i
      have hwmin : (dtKey (dtMin (addMinutes cur i) e) = dtKey cur + 60000000 * i ∨
          dtKey (dtMin (addMinutes cur i) e) = dtKey e) ∧
          dtKey (dtMin (addMinutes cur i) e) ≤ dtKey cur + 60000000 * i ∧
          dtKey (dtMin (addMinutes cur i) e) ≤ dtKey e := by
        unfold dtMin
        split
        · rename_i hsp
          rw [hkadd] at hsp
          exact ⟨Or.inr rfl, by omega, le_refl _⟩
        · rename_i hsp
          rw [hkadd] at hsp ⊢
          exact ⟨Or.inl rfl, le_refl _, by omega⟩
      set wend := dtMin (addMinutes cur i) e with hwend
      obtain ⟨hwdisj, hwub1, hwub2⟩ := hwmin
      have hwendtz : wend.tz = e.tz := by
        rw [hwend]
        unfold dtMin
        split
        · rfl
        · rw [tz_addMinutes, htz]
      have hlt2 : dtKey cur < dtKey wend := by omega
      have hle2 : dtKey wend ≤ dtKey e := hwub2
      have hfn : (dtKey e - dtKey wend).toNat < n := by omega
      obtain ⟨ws', hws', hne', hlen', hmem', hchain', hpair', hends', hcov'⟩ :=
        ih wend hwendtz hfn
      refine ⟨(cur, wend) :: ws', ?_, ?_, ?_, ?_, ?_, ?_, ?_, ?_⟩
      · show windowsLoopAux i e (n + 1) cur = some ((cur, wend) :: ws')
        unfold windowsLoopAux
        rw [if_pos hlt]
        simp only [hws']
      · simp only [List.cons_ne_nil, false_iff]
        omega
      · simp only [List.length_cons, hlen']
        have hDn : 0 < (60000000 * i).toNat := by omega
        rcases le_or_lt (dtKey e) (dtKey cur + 60000000 * i) with hcase | hcase
        · have h0 : (dtKey e - dtKey wend).toNat = 0 := by omega
          rw [h0, Nat.div_eq_of_lt (by omega),
            ceilStep_last _ _ hDn (by omega) (by omega)]
        · have h0 : (dtKey e - dtKey wend).toNat
              = (dtKey e - dtKey cur).toNat - (60000000 * i).toNat := by omega
          rw [h0, ceilStep_mid ((dtKey e - dtKey cur).toNat) _ hDn (by omega)]
      · intro w hw
        rcases List.mem_cons.mp hw with hw | hw
        · subst hw
          exact ⟨hlt2, le_refl _, htz, hwendtz⟩
        · obtain ⟨h1, h2, h3, h4⟩ := hmem' w hw
          exact ⟨h1, by omega, h3, h4⟩
      · rw [List.chain'_cons']
        refine ⟨?_, hchain'⟩
        intro b hb
        cases ws' with
        | nil => simp at hb
        | cons w t =>
          simp only [List.head?_cons, Option.mem_some_iff] at hb
          subst hb
          have h := (hends' (List.cons_ne_nil w t)).1
          simp only [List.head_cons] at h
          exact h.symm
      · rw [List.pairwise_cons]
        refine ⟨?_, hpair'⟩
        intro w hw
        exact (hmem' w hw).2.1
      · intro _
        refine ⟨rfl, ?_⟩
        cases ws' with
        | nil =>
          have hwe : dtKey e ≤ dtKey wend := hne'.mp rfl
          have hq : wend = e := dtEq_of_key_tz wend e hwendtz (by omega)
          simp [List.getLast, hq]
        | cons w t =>
          simp only [List.getLast_cons (List.cons_ne_nil w t)]
          exact (hends' (List.cons_ne_nil w t)).2
      · intro x
        constructor
        · intro hx
          rcases lt_or_le x (dtKey wend) with hcase | hcase
          · exact ⟨(cur, wend), List.mem_cons_self _ _, hx.1, hcase⟩
          · obtain ⟨w, hw, hxa, hxb⟩ := (hcov' x).mp ⟨hcase, hx.2⟩
            exact ⟨w, List.mem_cons_of_mem _ hw, hxa, hxb⟩
        · intro ⟨w, hw, hxa, hxb⟩
          rcases List.mem_cons.mp hw with hw | hw
          · subst hw
            exact ⟨hxa, lt_of_lt_of_le hxb hle2⟩
          · have := (hcov' x).mpr ⟨w, hw, hxa, hxb⟩
            exact ⟨by omega, this.2⟩
    · refine ⟨[], ?_, ?_, ?_, ?_, ?_, ?_, ?_, ?_⟩
      · show windowsLoopAux i e (n + 1) cur = some []
        unfold windowsLoopAux
        rw [if_neg hlt]
      · simp only [true_iff]; omega
      · have h1 : (dtKey e - dtKey cur).toNat = 0 := by omega
        rw [h1]
        have h2 : (60000000 * i).toNat - 1 < (60000000 * i).toNat := by omega
        simp [Nat.div_eq_of_lt h2]
      · intro w hw; simp at hw
      · exact List.chain'_nil
      · exact List.Pairwise.nil
      · intro hne; exact absurd rfl hne
      · intro x
        constructor
        · intro hx; omega
        · intro hx; simp at hx

theorem windowsLoopAux_diverges (i : Int) (hi : i ≤ 0) (e : PyDatetime) :
    ∀ (fuel : Nat) (cur : PyDatetime), cur.tz = e.tz → dtKey cur < dtKey e →
      windowsLoopAux i e fuel cur = none := by
  intro fuel
  induction fuel with
  | zero => intro cur _ _; rfl
  | succ n ih =>
    intro cur htz hlt
    have hkadd : dtKey (addMinutes cur i) = dtKey cur + 60000000 * i :=
      dtKey_addMinutes cur i
    unfold windowsLoopAux
    rw [if_pos hlt]
    have hwend : dtMin (addMinutes cur i) e = addMinutes cur i := by
      unfold dtMin
      rw [if_neg]
      rw [hkadd]
      omega
    have hrec : windowsLoopAux i e n (addMinutes cur i) = none := by
      apply ih
      · rw [tz_addMinutes]; exact htz
      · rw [hkadd]; omega
    simp only [hwend, hrec]

theorem dtKey_of_utc (d : PyDatetime) (h : d.tz = some 0) : dtKey d = d.wall := by
  simp [dtKey, h]

/-- C2: for every half-open range of UTC instants with start at or before end
and every positive window duration (minutes), `generate_time_windows` returns
a finite list of windows that is contiguous (each window's start is the
previous window's end), non-overlapping, covers exactly the half-open range
(first window starts at the range start, last window ends at — is truncated
to — the range end), and whose length is the ceiling of the range length
divided by the duration. -/
theorem c2_windows_partition (s e : PyDatetime) (interval : Int)
    (hs : s.tz = some 0) (he : e.tz = some 0) (_hse : s.wall ≤ e.wall)
    (hi : 0 < interval) :
    ∃ ws, generate_time_windows interval (.dt s) (.dt e) = .ok ws ∧
      List.Chain' (fun a b => a.2 = b.1) ws ∧
      List.Pairwise (fun w1 w2 => w1.2.wall ≤ w2.1.wall) ws ∧
      (∀ x : Int, (s.wall ≤ x ∧ x < e.wall) ↔ ∃ w ∈ ws, w.1.wall ≤ x ∧ x < w.2.wall) ∧
      (∀ hne : ws ≠ [], (ws.head hne).1 = s ∧ (ws.getLast hne).2 = e) ∧
      ws.length = ((e.wall - s.wall).toNat + (60000000 * interval).toNat - 1)
        / (60000000 * interval).toNat := by
  have htz : s.tz = e.tz := by rw [hs, he]
  have hks : dtKey s = s.wall := dtKey_of_utc s hs
  have hke : dtKey e = e.wall := dtKey_of_utc e he
  obtain ⟨ws, hws, _, hlen, hmem, hchain, hpair, hends, hcov⟩ :=
    windowsLoopAux_spec interval hi e (genFuel s e) s htz (by simp [genFuel])
  have hwallkey : ∀ w ∈ ws, dtKey w.1 = w.1.wall ∧ dtKey w.2 = w.2.wall := by
    intro w hw
    obtain ⟨_, _, h1, h2⟩ := hmem w hw
    exact ⟨dtKey_of_utc w.1 (by rw [h1, he]), dtKey_of_utc w.2 (by rw [h2, he])⟩
  refine ⟨ws, ?_, hchain, ?_, ?_, hends, ?_⟩
  · unfold generate_time_windows parse_time
    simp only [hws]
  · refine hpair.imp_of_mem ?_
    intro w1 w2 h1 h2 hle
    rw [(hwallkey w1 h1).2, (hwallkey w2 h2).1] at hle
    exact hle
  · intro x
    rw [← hks, ← hke]
    rw [hcov x]
    constructor
    · intro ⟨w, hw, ha, hb⟩
      refine ⟨w, hw, ?_, ?_⟩
      · rw [← (hwallkey w hw).1]; exact ha
      · rw [← (hwallkey w hw).2]; exact hb
    · intro ⟨w, hw, ha, hb⟩
      refine ⟨w, hw, ?_, ?_⟩
      · rw [(hwallkey w hw).1]; exact ha
      · rw [(hwallkey w hw).2]; exact hb
  · rw [hlen, hks, hke]

/-- C2 witness: the spec's own example — a two-hour UTC range with 60-minute
windows yields exactly the two windows of one hour each. -/
theorem c2_windows_partition_witness :
    (⟨0, some 0⟩ : PyDatetime).tz = some 0 ∧ (0 : Int) < 60 ∧
    ∃ ws, generate_time_windows 60 (.dt ⟨0, some 0⟩) (.dt ⟨7200000000, some 0⟩) = .ok ws ∧
      List.Chain' (fun a b => a.2 = b.1) ws ∧
      List.Pairwise (fun w1 w2 => w1.2.wall ≤ w2.1.wall) ws ∧
      (∀ x : Int, ((0 : Int) ≤ x ∧ x < 7200000000) ↔
        ∃ w ∈ ws, w.1.wall ≤ x ∧ x < w.2.wall) ∧
      (∀ hne : ws ≠ [], (ws.head hne).1 = ⟨0, some 0⟩ ∧
        (ws.getLast hne).2 = ⟨7200000000, some 0⟩) ∧
      ws.length = (((7200000000 : Int) - 0).toNat + ((60000000 : Int) * 60).toNat - 1)
        / ((60000000 : Int) * 60).toNat :=
  ⟨rfl, by norm_num,
    c2_windows_partition ⟨0, some 0⟩ ⟨7200000000, some 0⟩ 60 rfl rfl (by norm_num)
      (by norm_num)⟩

/-- C4 (evidence for the code bug): `generate_time_windows` contains no guard
on the configured duration.  For every duration at most zero and every
non-empty range, the loop body sets the window end to
`min(current + duration, end)`, which never advances the cursor past the end,
so the `while current_time < end_dt` loop runs forever: the model returns
`none` for EVERY fuel bound, and the wrapper reports the non-termination
marker instead of the `InvalidConfiguration` error the specification
requires. -/
theorem c4_nonpositive_duration_loops_forever (s e : PyDatetime) (interval : Int)
    (hi : interval ≤ 0) (htz : s.tz = e.tz) (hlt : dtKey s < dtKey e) :
    (∀ fuel, windowsLoopAux interval e fuel s = none) ∧
    generate_time_windows interval (.dt s) (.dt e) = .error .loopForever := by
  constructor
  · intro fuel
    exact windowsLoopAux_diverges interval hi e fuel s htz hlt
  · unfold generate_time_windows parse_time
    simp only [windowsLoopAux_diverges interval hi e _ s htz hlt]

/-- C4 witness: duration 0 over a one-minute range exhausts any concrete fuel
bound and the wrapper reports non-termination. -/
theorem c4_nonpositive_duration_loops_forever_witness :
    windowsLoopAux 0 ⟨60000000, some 0⟩ 1000 ⟨0, some 0⟩ = none ∧
    generate_time_windows 0 (.dt ⟨0, some 0⟩) (.dt ⟨60000000, some 0⟩)
      = .error .loopForever :=
  ⟨(c4_nonpositive_duration_loops_forever ⟨0, some 0⟩ ⟨60000000, some 0⟩ 0
      (by norm_num) rfl (by decide)).1 1000,
   (c4_nonpositive_duration_loops_forever ⟨0, some 0⟩ ⟨60000000, some 0⟩ 0
      (by norm_num) rfl (by decide)).2⟩

/-! ## Time parser: timezone behavior (C3) -/

theorem strptime_tz_none (s fmt : String) (d : PyDatetime)
    (h : strptime s fmt = some d) : d.tz = none := by
  unfold strptime at h
  rcases hr : runFormat fmt.toList s.toList {} with _ | f
  · rw [hr] at h
    exact absurd h (by simp)
  · rw [hr] at h
    dsimp only at h
    by_cases hv : validFields f
    · rw [if_pos hv] at h
      cases h
      rfl
    · rw [if_neg hv] at h
      exact absurd h (by simp)

theorem tryFormats_tz (fmts : List String) (s : String) (d : PyDatetime)
    (h : tryFormats fmts s = .ok d) : d.tz = some 0 := by
  induction fmts with
  | nil => exact absurd h (by simp [tryFormats])
  | cons fmt rest ih =>
    unfold tryFormats at h
    rcases hp : strptime s fmt with _ | p
    · rw [hp] at h
      exact ih h
    · rw [hp] at h
      dsimp only at h
      have hn : p.tz = none := strptime_tz_none s fmt p hp
      rw [hn] at h
      simp only [Option.isNone_none, if_true] at h
      cases h
      rfl

/-- C3 counterexample: `parse_time` applied to an offset-naive datetime object
returns it unchanged — still offset-naive, not UTC-aware, contradicting the
claim's "in particular" sentence. -/
theorem c3_counterexample_naive_datetime_passthrough :
    parse_time (.dt ⟨0, none⟩) = .ok ⟨0, none⟩ ∧
    (⟨(0 : Int), (none : Option Int)⟩ : PyDatetime).tz = none := by
  exact ⟨rfl, rfl⟩

/-- C3 amended: every string input accepted by `parse_time` is returned as a
UTC-aware instant (the accepted layouts all parse to offset-naive datetimes,
which are then assumed UTC), while an already-constructed datetime instant is
passed through unchanged — in particular an offset-naive datetime input stays
offset-naive. -/
theorem c3_amended_string_inputs_utc_datetime_passthrough :
    (∀ (s : String) (d : PyDatetime), parse_time (.str s) = .ok d → d.tz = some 0) ∧
    (∀ d : PyDatetime, parse_time (.dt d) = .ok d) := by
  constructor
  · intro s d h
    exact tryFormats_tz TIME_FORMATS s d h
  · intro d
    rfl

/-- C3 witness: the string layout date-only example parses and comes back
UTC-aware. -/
theorem c3_amended_witness :
    parse_time (.str ("2024-01-02")) =
      .ok ⟨(toOrdinal 2024 1 2 * 86400 : Nat) * 1000000, some 0⟩ ∧
    (⟨((toOrdinal 2024 1 2 * 86400 : Nat) * 1000000 : Int), some 0⟩ : PyDatetime).tz
      = some 0 :=
  ⟨by decide,
   (c3_amended_string_inputs_utc_datetime_passthrough).1 ("2024-01-02")
     ⟨(toOrdinal 2024 1 2 * 86400 : Nat) * 1000000, some 0⟩ (by decide)⟩

/-! ## Flat-mode page loop: conservation and pacing lemmas -/

theorem chunksLoop_sum_join (rows : List Row) (csize : Nat) (tname tfield : String)
    (hc : 0 < csize) :
    ∀ (fuel off cindex : Nat), rows.length - off < fuel →
      sumFlatSizes (chunksLoop rows csize rows.length tname tfield fuel off cindex).2
        = rows.length - off ∧
      ((chunksLoop rows csize rows.length tname tfield fuel off cindex).2.map
        (fun p => p.1.data)).flatten = rows.drop off := by
  intro fuel
  induction fuel with
  | zero => intro off cindex h; omega
  | succ n ih =>
    intro off cindex hf
    unfold chunksLoop
    by_cases hoff : off < rows.length
    · rw [if_pos hoff]
      have hdlen : (rows.drop off).length = rows.length - off := List.length_drop off rows
      have hdne : rows.drop off ≠ [] := by
        intro hd
        rw [hd] at hdlen
        simp at hdlen
        omega
      have hcne : ((rows.drop off).take csize).isEmpty = false := by
        rcases hq : (rows.drop off).take csize with _ | _
        · rcases List.take_eq_nil_iff.mp hq with h | h
          · omega
          · exact absurd h hdne
        · rfl
      simp only [hcne, Bool.false_eq_true, if_false]
      have hclen : ((rows.drop off).take csize).length
          = min csize (rows.length - off) := by
        rw [List.length_take, hdlen]
      obtain ⟨ihsum, ihjoin⟩ := ih (off + csize) (cindex + 1) (by omega)
      constructor
      · unfold sumFlatSizes at ihsum ⊢
        simp only [List.map_cons, List.sum_cons, ihsum, hclen]
        omega
      · have hdd : List.drop (off + csize) rows = (List.drop off rows).drop csize := by
          rw [List.drop_drop, Nat.add_comm off csize]
        simp only [List.map_cons, List.flatten_cons, ihjoin, hdd, List.take_append_drop]
    · rw [if_neg hoff]
      constructor
      · unfold sumFlatSizes
        simp only [List.map_nil, List.sum_nil]
        omega
      · have hnil : rows.drop off = [] := List.drop_eq_nil_of_le (by omega)
        simp [hnil]

theorem chunksLoop_pause_always (rows : List Row) (csize total : Nat)
    (tname tfield : String) :
    ∀ (fuel off cindex : Nat) p,
      p ∈ (chunksLoop rows csize total tname tfield fuel off cindex).2 → p.2 = true := by
  intro fuel
  induction fuel with
  | zero => intro off cindex p hp; simp [chunksLoop] at hp
  | succ n ih =>
    intro off cindex p hp
    unfold chunksLoop at hp
    by_cases hoff : off < total
    · rw [if_pos hoff] at hp
      by_cases hemp : ((rows.drop off).take csize).isEmpty
      · rw [if_pos hemp] at hp
        simp at hp
      · rw [if_neg hemp] at hp
        rcases List.mem_cons.mp hp with hp | hp
        · rw [hp]
        · exact ih (off + csize) (cindex + 1) p hp
    · rw [if_neg hoff] at hp
      simp at hp

/-! ## Windowed-mode loops: conservation, running totals, pacing -/

theorem windowChunksLoop_spec (rows : List Row) (csize widx : Nat)
    (a b : PyDatetime) (tname tfield : String) (hc : 0 < csize) :
    ∀ (fuel off tot : Nat), rows.length - off < fuel →
      sumWindowSizes
        (windowChunksLoop rows csize rows.length widx a b tname tfield fuel off tot).2
        = rows.length - off ∧
      (∀ p ∈ (windowChunksLoop rows csize rows.length widx a b tname tfield
          fuel off tot).2,
        p.1.window_index = widx ∧ 1 ≤ p.1.chunk_size ∧ p.1.chunk_size ≤ csize ∧
          (p.2 = true ↔ p.1.chunk_size = csize)) ∧
      runningFromW tot
        ((windowChunksLoop rows csize rows.length widx a b tname tfield
          fuel off tot).2.map Prod.fst) ∧
      (∀ c : WindowChunk,
        ((windowChunksLoop rows csize rows.length widx a b tname tfield
          fuel off tot).2.map Prod.fst).head? = some c → c.chunk_offset = off) := by
  intro fuel
  induction fuel with
  | zero => intro off tot h; omega
  | succ n ih =>
    intro off tot hf
    unfold windowChunksLoop
    by_cases hoff : off < rows.length
    · rw [if_pos hoff]
      have hdlen : (rows.drop off).length = rows.length - off := List.length_drop off rows
      have hcne : ((rows.drop off).take csize).isEmpty = false := by
        rcases hq : (rows.drop off).take csize with _ | _
        · rcases List.take_eq_nil_iff.mp hq with h | h
          · omega
          · rw [h] at hdlen
            simp at hdlen
            omega
        · rfl
      simp only [hcne, Bool.false_eq_true, if_false]
      have hclen : ((rows.drop off).take csize).length
          = min csize (rows.length - off) := by
        rw [List.length_take, hdlen]
      obtain ⟨ihsum, ihmem, ihrun, ihhead⟩ :=
        ih (off + csize) (tot + ((rows.drop off).take csize).length) (by omega)
      refine ⟨?_, ?_, ?_, ?_⟩
      · unfold sumWindowSizes at ihsum ⊢
        simp only [List.map_cons, List.sum_cons, ihsum]
        omega
      · intro p hp
        rcases List.mem_cons.mp hp with hp | hp
        · subst hp
          dsimp only
          refine ⟨rfl, ?_, ?_, ?_⟩
          · omega
          · omega
          · simp only [decide_eq_true_eq]
            omega
        · exact ihmem p hp
      · simp only [List.map_cons]
        exact ⟨rfl, ihrun⟩
      · intro c hcc
        simp only [List.map_cons, List.head?_cons, Option.some.injEq] at hcc
        rw [← hcc]
    · rw [if_neg hoff]
      refine ⟨?_, ?_, trivial, ?_⟩
      · unfold sumWindowSizes
        simp only [List.map_nil, List.sum_nil]
        omega
      · intro p hp
        simp at hp
      · intro c hcc
        simp at hcc

theorem selectedRows_empty_of_le (l : List Row) (lo hi : Int) (pred : RowPred)
    (h : hi ≤ lo) : selectedRows l lo hi pred = [] := by
  induction l with
  | nil => rfl
  | cons r rest ih =>
    unfold selectedRows at ih ⊢
    rw [List.filter_cons, if_neg, ih]
    simp only [Bool.and_eq_true, decide_eq_true_eq]
    rintro ⟨⟨ha, hb⟩, _⟩
    omega

theorem selectedRows_split (l : List Row) (pred : RowPred) (lo mid hi : Int)
    (h1 : lo ≤ mid) (h2 : mid ≤ hi) :
    (selectedRows l lo mid pred).length + (selectedRows l mid hi pred).length
      = (selectedRows l lo hi pred).length := by
  induction l with
  | nil => rfl
  | cons r rest ih =>
    simp only [selectedRows] at ih ⊢
    simp only [List.filter_cons]
    rcases hp : pred r with _ | _
    · simp only [hp, Bool.and_false, Bool.false_eq_true, if_false]
      exact ih
    · simp only [hp, Bool.and_true, Bool.and_eq_true, decide_eq_true_eq]
      split_ifs with hA hB hB
      all_goals try simp only [List.length_cons]
      all_goals omega

theorem windowsLoopAux_count_sum (i : Int) (hi : 0 < i) (e : PyDatetime)
    (l : List Row) (pred : RowPred) :
    ∀ (fuel : Nat) (cur : PyDatetime) (ws : List (PyDatetime × PyDatetime)),
      cur.tz = e.tz → windowsLoopAux i e fuel cur = some ws →
      (ws.map (fun w => (selectedRows l (dtKey w.1) (dtKey w.2) pred).length)).sum
        = (selectedRows l (dtKey cur) (dtKey e) pred).length := by
  intro fuel
  induction fuel with
  | zero =>
    intro cur ws _ h
    exact absurd h (by simp [windowsLoopAux])
  | succ n ih =>
    intro cur ws htz h
    unfold windowsLoopAux at h
    by_cases hlt : dtKey cur < dtKey e
    · rw [if_pos hlt] at h
      dsimp only at h
      have hkadd : dtKey (addMinutes cur i) = dtKey cur + 60000000 * i :=
        dtKey_addMinutes cur i
      have hwub2 : dtKey (dtMin (addMinutes cur i) e) ≤ dtKey e := by
        unfold dtMin
        split
        · exact le_refl _
        · rename_i hsp
          omega
      have hwlb : dtKey cur ≤ dtKey (dtMin (addMinutes cur i) e) := by
        unfold dtMin
        split
        · omega
        · rw [hkadd]
          omega
      have htzw : (dtMin (addMinutes cur i) e).tz = e.tz := by
        unfold dtMin
        split
        · rfl
        · rw [tz_addMinutes, htz]
      rcases hrec : windowsLoopAux i e n (dtMin (addMinutes cur i) e) with _ | ws'
      · rw [hrec] at h
        exact absurd h (by simp)
      · rw [hrec] at h
        cases h
        simp only [List.map_cons, List.sum_cons]
        rw [ih (dtMin (addMinutes cur i) e) ws' htzw hrec]
        exact selectedRows_split l pred _ _ _ hwlb hwub2
    · rw [if_neg hlt] at h
      cases h
      simp only [List.map_nil, List.sum_nil]
      rw [selectedRows_empty_of_le l _ _ pred (by omega)]
      rfl

theorem runningFromW_append (l2 l1 : List WindowChunk) :
    ∀ base : Nat, runningFromW base l1 →
      runningFromW (base + (l1.map (fun c => c.chunk_size)).sum) l2 →
      runningFromW base (l1 ++ l2) := by
  induction l1 with
  | nil =>
    intro base _ h2
    simpa using h2
  | cons c rest ih =>
    intro base h1 h2
    obtain ⟨hc, hrest⟩ := h1
    refine ⟨hc, ?_⟩
    apply ih (base + c.chunk_size) hrest
    have heq : base + c.chunk_size + (rest.map (fun c => c.chunk_size)).sum
        = base + ((c :: rest).map (fun c => c.chunk_size)).sum := by
      simp only [List.map_cons, List.sum_cons]
      omega
    rw [heq]
    exact h2

theorem runningFromW_get (cs : List WindowChunk) :
    ∀ base, runningFromW base cs →
      ∀ k (hk : k < cs.length),
        (cs.get ⟨k, hk⟩).total_records_so_far
          = base + ((cs.take (k + 1)).map (fun c => c.chunk_size)).sum := by
  induction cs with
  | nil =>
    intro base _ k hk
    simp at hk
  | cons c rest ih =>
    intro base h k hk
    obtain ⟨h1, h2⟩ := h
    cases k with
    | zero =>
      have hg : (c :: rest).get ⟨0, hk⟩ = c := rfl
      simp only [hg, List.take_succ_cons, List.take_zero,
        List.map_cons, List.map_nil, List.sum_cons, List.sum_nil]
      omega
    | succ k =>
      simp only [List.get_cons_succ, List.take_succ_cons, List.map_cons, List.sum_cons]
      rw [ih (base + c.chunk_size) h2 k (by simpa using hk)]
      omega

theorem runningFromW_mono (cs : List WindowChunk) :
    ∀ base, runningFromW base cs → (∀ c ∈ cs, 1 ≤ c.chunk_size) →
      (∀ c ∈ cs, base < c.total_records_so_far) ∧
      List.Pairwise
        (fun c1 c2 => c1.total_records_so_far < c2.total_records_so_far) cs := by
  induction cs with
  | nil =>
    intro base _ _
    exact ⟨by simp, .nil⟩
  | cons c rest ih =>
    intro base h hsz
    obtain ⟨h1, h2⟩ := h
    obtain ⟨hallgt, hpw⟩ :=
      ih (base + c.chunk_size) h2 (fun x hx => hsz x (List.mem_cons_of_mem _ hx))
    have hc1 : 1 ≤ c.chunk_size := hsz c (List.mem_cons_self _ _)
    refine ⟨?_, ?_⟩
    · intro x hx
      rcases List.mem_cons.mp hx with hx | hx
      · subst hx
        omega
      · have := hallgt x hx
        omega
    · rw [List.pairwise_cons]
      refine ⟨?_, hpw⟩
      intro x hx
      have := hallgt x hx
      omega

theorem sumWindowSizes_append (xs ys : List (WindowChunk × Bool)) :
    sumWindowSizes (xs ++ ys) = sumWindowSizes xs + sumWindowSizes ys := by
  unfold sumWindowSizes
  rw [List.map_append, List.sum_append]

theorem sumSizes_map_fst (P : List (WindowChunk × Bool)) :
    ((P.map Prod.fst).map (fun c => c.chunk_size)).sum = sumWindowSizes P := by
  unfold sumWindowSizes
  rw [List.map_map]
  rfl

theorem pairwiseOfAllMem {α : Type} (R : α → α → Prop) :
    ∀ (l : List α), (∀ x ∈ l, ∀ y ∈ l, R x y) → l.Pairwise R := by
  intro l
  induction l with
  | nil => intro _; exact .nil
  | cons c t ih =>
    intro h
    refine List.Pairwise.cons ?_ (ih ?_)
    · intro y hy
      exact h c (List.mem_cons_self _ _) y (List.mem_cons_of_mem _ hy)
    · intro x hx y hy
      exact h x (List.mem_cons_of_mem _ hx) y (List.mem_cons_of_mem _ hy)

theorem lookupTable_isNone_false (t : String) (ht : (lookupTable t).isSome) :
    (lookupTable t).isNone = false := by
  rcases hq : lookupTable t with _ | cfg
  · rw [hq] at ht
    exact absurd ht (by simp)
  · rfl

theorem windowsStreamLoop_spec (db : Database) (t : String) (pred : RowPred)
    (csize : Nat) (hc : 0 < csize) (ht : (lookupTable t).isSome) :
    ∀ (wins : List (PyDatetime × PyDatetime)) (i tot : Nat),
      (windowsStreamLoop db t pred csize wins i tot).err = none ∧
      sumWindowSizes (windowsStreamLoop db t pred csize wins i tot).items
        = (wins.map (fun w =>
            (selectedRows (db t) (dtKey w.1) (dtKey w.2) pred).length)).sum ∧
      runningFromW tot (chunksOf (windowsStreamLoop db t pred csize wins i tot)) ∧
      (∀ p ∈ (windowsStreamLoop db t pred csize wins i tot).items,
        i ≤ p.1.window_index ∧ 1 ≤ p.1.chunk_size ∧ p.1.chunk_size ≤ csize ∧
          (p.2 = true ↔ p.1.chunk_size = csize)) ∧
      List.Pairwise (fun c1 c2 => c1.window_index ≤ c2.window_index)
        (chunksOf (windowsStreamLoop db t pred csize wins i tot)) ∧
      List.Chain'
        (fun c1 c2 => c1.window_index = c2.window_index ∨ c2.chunk_offset = 0)
        (chunksOf (windowsStreamLoop db t pred csize wins i tot)) ∧
      (∀ c, (chunksOf (windowsStreamLoop db t pred csize wins i tot)).head?
        = some c → c.chunk_offset = 0) := by
  intro wins
  induction wins with
  | nil =>
    intro i tot
    refine ⟨rfl, rfl, trivial, ?_, .nil, List.chain'_nil, ?_⟩
    · intro p hp
      simp [windowsStreamLoop, StreamOut.items] at hp
    · intro c hcc
      simp [windowsStreamLoop, chunksOf, StreamOut.items] at hcc
  | cons w rest ih =>
    intro i tot
    obtain ⟨a, b⟩ := w
    unfold windowsStreamLoop
    simp only [lookupTable_isNone_false t ht, Bool.false_eq_true, if_false]
    set wrows := selectedRows (db t) (dtKey a) (dtKey b) pred with hwrows
    by_cases hz : wrows.length = 0
    · rw [if_pos hz]
      obtain ⟨iherr, ihsum, ihrun, ihmem, ihpw, ihch, ihhd⟩ := ih (i + 1) tot
      refine ⟨iherr, ?_, ihrun, ?_, ihpw, ihch, ihhd⟩
      · simp only [List.map_cons, List.sum_cons, ← hwrows, hz, Nat.zero_add]
        exact ihsum
      · intro p hp
        obtain ⟨hpi, hrest⟩ := ihmem p hp
        exact ⟨by omega, hrest⟩
    · rw [if_neg hz]
      obtain ⟨insum, inmem, inrun, inhead⟩ :=
        windowChunksLoop_spec wrows csize i a b t (timeFieldOf t) hc
          (wrows.length + 1) 0 tot (by omega)
      set P := (windowChunksLoop wrows csize wrows.length i a b t (timeFieldOf t)
        (wrows.length + 1) 0 tot).2 with hP
      obtain ⟨oerr, osum, orun, omem, opw, och, ohd⟩ :=
        ih (i + 1) (tot + sumWindowSizes P)
      have hPmemw : ∀ p ∈ P, p.1.window_index = i ∧ 1 ≤ p.1.chunk_size ∧
          p.1.chunk_size ≤ csize ∧ (p.2 = true ↔ p.1.chunk_size = csize) := inmem
      have hPsum : sumWindowSizes P = wrows.length := by
        rw [insum]
        omega
      have hPne : P ≠ [] := by
        intro hcon
        rw [hcon] at hPsum
        unfold sumWindowSizes at hPsum
        simp at hPsum
        omega
      rw [hPsum] at oerr osum orun omem opw och ohd ⊢
      refine ⟨oerr, ?_, ?_, ?_, ?_, ?_, ?_⟩
      · simp only [StreamOut.items, sumWindowSizes_append, osum, List.map_cons,
          List.sum_cons, ← hwrows, hPsum]
      · unfold chunksOf
        simp only [StreamOut.items, List.map_append]
        apply runningFromW_append
        · exact inrun
        · rw [sumSizes_map_fst, hPsum]
          exact orun
      · intro p hp
        simp only [StreamOut.items] at hp
        rcases List.mem_append.mp hp with hp | hp
        · obtain ⟨hpi, hrest⟩ := hPmemw p hp
          exact ⟨by omega, hrest⟩
        · obtain ⟨hpi, hrest⟩ := omem p hp
          exact ⟨by omega, hrest⟩
      · unfold chunksOf
        simp only [StreamOut.items, List.map_append]
        rw [List.pairwise_append]
        refine ⟨?_, opw, ?_⟩
        · apply pairwiseOfAllMem
          intro x hx y hy
          obtain ⟨px, hpx, rfl⟩ := List.mem_map.mp hx
          obtain ⟨py, hpy, rfl⟩ := List.mem_map.mp hy
          rw [(hPmemw px hpx).1, (hPmemw py hpy).1]
        · intro x hx y hy
          obtain ⟨px, hpx, rfl⟩ := List.mem_map.mp hx
          obtain ⟨py, hpy, rfl⟩ := List.mem_map.mp hy
          have h1 := (hPmemw px hpx).1
          have h2 := (omem py hpy).1
          omega
      · unfold chunksOf
        simp only [StreamOut.items, List.map_append]
        apply List.Chain'.append
        · apply List.Pairwise.chain'
          apply pairwiseOfAllMem
          intro x hx y hy
          obtain ⟨px, hpx, rfl⟩ := List.mem_map.mp hx
          obtain ⟨py, hpy, rfl⟩ := List.mem_map.mp hy
          left
          rw [(hPmemw px hpx).1, (hPmemw py hpy).1]
        · exact och
        · intro x hx y hy
          right
          exact ohd y hy
      · intro c hcc
        unfold chunksOf at hcc
        simp only [StreamOut.items, List.map_append] at hcc
        rcases hPm : P.map Prod.fst with _ | ⟨c0, cs0⟩
        · exact absurd (List.map_eq_nil_iff.mp hPm) hPne
        · rw [hPm, List.cons_append, List.head?_cons, Option.some.injEq] at hcc
          subst hcc
          apply inhead
          rw [hPm, List.head?_cons]

/-- C1: for every table in the registry, every half-open range of UTC
instants, every predicate, and the configured chunk size and window duration
(both positive), the count returned by `get_table_count` equals the sum of
the `chunk_size` fields of all chunk envelopes yielded by
`stream_data_by_chunks` and also the sum over
`stream_data_by_time_windows`; moreover the concatenation of the flat-mode
chunk payloads is exactly the ordered result sequence of the range query —
no record is duplicated or lost across chunks. -/
theorem c1_count_equals_chunk_sums (db : Database) (t : String) (s e : PyDatetime)
    (pred : RowPred) (csize : Nat) (interval : Int)
    (hc : 0 < csize) (hi : 0 < interval) (ht : (lookupTable t).isSome)
    (hs : s.tz = some 0) (he : e.tz = some 0) :
    ∃ n, get_table_count db t (.dt s) (.dt e) pred = .ok n ∧
      sumFlatSizes (stream_data_by_chunks db t (.dt s) (.dt e) pred csize).items = n ∧
      sumWindowSizes (stream_data_by_time_windows db t (.dt s) (.dt e) pred csize
        interval).items = n ∧
      ((stream_data_by_chunks db t (.dt s) (.dt e) pred csize).items.map
        (fun p => p.1.data)).flatten
        = selectedRows (db t) (dtKey s) (dtKey e) pred := by
  have hks : s.tz = e.tz := by rw [hs, he]
  have hrr : rangeRows db t (.dt s) (.dt e) pred
      = .ok (selectedRows (db t) (dtKey s) (dtKey e) pred) := by
    unfold rangeRows
    simp only [lookupTable_isNone_false t ht, Bool.false_eq_true, if_false]
    rfl
  refine ⟨(selectedRows (db t) (dtKey s) (dtKey e) pred).length, ?_, ?_, ?_, ?_⟩
  · unfold get_table_count
    rw [hrr]
  · unfold stream_data_by_chunks
    rw [hrr]
    dsimp only
    by_cases h0 : (selectedRows (db t) (dtKey s) (dtKey e) pred).length = 0
    · rw [if_pos h0]
      unfold sumFlatSizes
      simp only [StreamOut.items, List.map_nil, List.sum_nil]
      omega
    · rw [if_neg h0]
      obtain ⟨hsum, _⟩ := chunksLoop_sum_join
        (selectedRows (db t) (dtKey s) (dtKey e) pred) csize t (timeFieldOf t) hc
        ((selectedRows (db t) (dtKey s) (dtKey e) pred).length + 1) 0 0 (by omega)
      simp only [StreamOut.items]
      rw [hsum]
      omega
  · unfold stream_data_by_time_windows generate_time_windows parse_time
    obtain ⟨ws, hws, _⟩ :=
      windowsLoopAux_spec interval hi e (genFuel s e) s hks (by simp [genFuel])
    simp only [hws]
    obtain ⟨_, osum, _⟩ := windowsStreamLoop_spec db t pred csize hc ht ws 1 0
    rw [osum]
    exact windowsLoopAux_count_sum interval hi e (db t) pred (genFuel s e) s ws hks hws
  · unfold stream_data_by_chunks
    rw [hrr]
    dsimp only
    by_cases h0 : (selectedRows (db t) (dtKey s) (dtKey e) pred).length = 0
    · rw [if_pos h0]
      simp only [StreamOut.items, List.map_nil, List.flatten_nil]
      exact (List.length_eq_zero.mp h0).symm
    · rw [if_neg h0]
      obtain ⟨_, hjoin⟩ := chunksLoop_sum_join
        (selectedRows (db t) (dtKey s) (dtKey e) pred) csize t (timeFieldOf t) hc
        ((selectedRows (db t) (dtKey s) (dtKey e) pred).length + 1) 0 0 (by omega)
      simp only [StreamOut.items]
      rw [hjoin, List.drop_zero]

/-- C1 witness: a five-row table streamed with chunk size 2 over a range
covering everything, in both modes, against a one-minute window duration. -/
theorem c1_count_equals_chunk_sums_witness :
    (0 : Nat) < 2 ∧ (0 : Int) < 1 ∧ (lookupTable ("tweets")).isSome = true ∧
    (∃ n, get_table_count demoDb "tweets" (.dt ⟨0, some 0⟩) (.dt ⟨5, some 0⟩)
        truePred = .ok n ∧
      sumFlatSizes (stream_data_by_chunks demoDb "tweets" (.dt ⟨0, some 0⟩)
        (.dt ⟨5, some 0⟩) truePred 2).items = n ∧
      sumWindowSizes (stream_data_by_time_windows demoDb "tweets" (.dt ⟨0, some 0⟩)
        (.dt ⟨5, some 0⟩) truePred 2 1).items = n ∧
      ((stream_data_by_chunks demoDb "tweets" (.dt ⟨0, some 0⟩) (.dt ⟨5, some 0⟩)
        truePred 2).items.map (fun p => p.1.data)).flatten
        = selectedRows (demoDb "tweets") (dtKey ⟨0, some 0⟩) (dtKey ⟨5, some 0⟩)
          truePred) :=
  ⟨by decide, by decide, by decide,
   c1_count_equals_chunk_sums demoDb "tweets" ⟨0, some 0⟩ ⟨5, some 0⟩ truePred 2 1
     (by decide) (by decide) (by decide) rfl rfl⟩

theorem chunksLoop_view (rows : List Row) (csize : Nat) (tn tf : String)
    (hc : 0 < csize) :
    ∀ (fuel off ci : Nat), rows.length - off < fuel →
      (chunksLoop rows csize rows.length tn tf fuel off ci).2.map
        (fun p => (p.1.chunk_index, p.1.chunk_offset, p.1.chunk_size,
          p.1.total_count, p.1.progress))
      = chunksView rows.length csize fuel off ci := by
  intro fuel
  induction fuel with
  | zero => intro off ci h; omega
  | succ n ih =>
    intro off ci hf
    unfold chunksLoop chunksView
    by_cases hoff : off < rows.length
    · rw [if_pos hoff, if_pos hoff]
      have hdlen : (rows.drop off).length = rows.length - off := List.length_drop off rows
      have hclen : ((rows.drop off).take csize).length
          = min csize (rows.length - off) := by
        rw [List.length_take, hdlen]
      have hcne : ((rows.drop off).take csize).isEmpty = false := by
        rcases hq : (rows.drop off).take csize with _ | _
        · rcases List.take_eq_nil_iff.mp hq with h | h
          · omega
          · rw [h] at hdlen
            simp at hdlen
            omega
        · rfl
      have hmin : ¬(min csize (rows.length - off) = 0) := by omega
      simp only [hcne, Bool.false_eq_true, if_false, hmin]
      rw [List.map_cons, ih (off + csize) (ci + 1) (by omega), hclen]
    · rw [if_neg hoff, if_neg hoff]
      rfl

/-- C5: a table with exactly 2500 matching rows streamed in flat mode with
chunk size 1000 yields exactly three chunk envelopes, of sizes 1000, 1000 and
500, with 1-based monotonically increasing `chunk_index`, each envelope's
`progress` equal to `(chunk_offset + chunk_size) / total_count`, and the
final chunk's progress equal to 1. -/
theorem c5_flat_2500_rows_three_chunks :
    (stream_data_by_chunks bigDb "tweets" (.dt ⟨0, some 0⟩) (.dt ⟨1, some 0⟩)
        truePred 1000).items.map
      (fun p => (p.1.chunk_index, p.1.chunk_offset, p.1.chunk_size,
        p.1.total_count, p.1.progress))
      = [(1, 0, 1000, 2500, ((0 + 1000 : Nat) : ℚ) / (2500 : ℚ)),
         (2, 1000, 1000, 2500, ((1000 + 1000 : Nat) : ℚ) / (2500 : ℚ)),
         (3, 2000, 500, 2500, ((2000 + 500 : Nat) : ℚ) / (2500 : ℚ))] ∧
    ((2000 + 500 : Nat) : ℚ) / (2500 : ℚ) = 1 := by
  have hsel : selectedRows bigRows 0 1 truePred = bigRows := by
    unfold selectedRows
    apply List.filter_eq_self.mpr
    intro r hr
    unfold bigRows at hr
    rw [List.eq_of_mem_replicate hr]
    rfl
  have hlen : bigRows.length = 2500 := List.length_replicate 2500 _
  have hrng : rangeRows bigDb ("tweets") (.dt ⟨0, some 0⟩) (.dt ⟨1, some 0⟩) truePred
      = .ok (selectedRows bigRows 0 1 truePred) := rfl
  constructor
  · unfold stream_data_by_chunks
    rw [hrng, hsel]
    dsimp only
    rw [if_neg (by rw [hlen]; norm_num)]
    simp only [StreamOut.items]
    rw [chunksLoop_view bigRows 1000 ("tweets") (timeFieldOf ("tweets"))
      (by norm_num) (bigRows.length + 1) 0 0 (by omega), hlen]
    rfl
  · norm_num

/-- C6 counterexample: in flat mode a database with 5 matching rows and chunk
size 10 yields a single short (final) page of 5 records, and the cooperative
pause IS inserted after it (the flat-mode loop sleeps unconditionally,
src/data_fetcher.py line 293), contradicting the claim that a short or final
page never gets the pause. -/
theorem c6_counterexample_flat_pause_after_short_page :
    (stream_data_by_chunks demoDb ("tweets") (.dt ⟨0, some 0⟩) (.dt ⟨5, some 0⟩)
        truePred 10).items.map (fun p => (p.1.chunk_size, p.2)) = [(5, true)] := by
  decide

/-- C6 amended: in windowed mode the cooperative pause after a yielded chunk
is inserted if and only if the chunk is a full page (its size equals the
configured chunk size); in flat mode the pause is inserted after EVERY
yielded chunk, full or short. -/
theorem c6_amended_pacing :
    (∀ (db : Database) (t : String) (st et : TimeInput) (pred : RowPred)
        (csize : Nat),
      (stream_data_by_chunks db t st et pred csize).items.map Prod.snd
        = (stream_data_by_chunks db t st et pred csize).items.map
            (fun _ => true)) ∧
    (∀ (db : Database) (t : String) (s e : PyDatetime) (pred : RowPred)
        (csize : Nat) (interval : Int),
      0 < csize → (lookupTable t).isSome → 0 < interval → s.tz = e.tz →
      (stream_data_by_time_windows db t (.dt s) (.dt e) pred csize
          interval).items.map Prod.snd
        = (stream_data_by_time_windows db t (.dt s) (.dt e) pred csize
            interval).items.map (fun p => decide (p.1.chunk_size = csize))) := by
  constructor
  · intro db t st et pred csize
    apply List.map_congr_left
    intro p hp
    unfold stream_data_by_chunks at hp
    rcases hr : rangeRows db t st et pred with e0 | rows
    · rw [hr] at hp
      simp at hp
    · rw [hr] at hp
      dsimp only at hp
      by_cases hz : rows.length = 0
      · rw [if_pos hz] at hp
        simp at hp
      · rw [if_neg hz] at hp
        simp only [StreamOut.items] at hp
        exact chunksLoop_pause_always rows csize rows.length t (timeFieldOf t)
          (rows.length + 1) 0 0 p hp
  · intro db t s e pred csize interval hc ht hi htz
    apply List.map_congr_left
    intro p hp
    obtain ⟨ws, hws, _⟩ :=
      windowsLoopAux_spec interval hi e (genFuel s e) s htz (by simp [genFuel])
    unfold stream_data_by_time_windows generate_time_windows parse_time at hp
    simp only [hws] at hp
    obtain ⟨_, _, _, omem, _⟩ := windowsStreamLoop_spec db t pred csize hc ht ws 1 0
    have hiff := (omem p hp).2.2.2
    rcases hb : p.2 with _ | _
    · rcases hd : decide (p.1.chunk_size = csize) with _ | _
      · rfl
      · rw [hb] at hiff
        have := hiff.mpr (of_decide_eq_true hd)
        simp at this
    · rw [hb] at hiff
      exact (decide_eq_true (hiff.mp rfl)).symm

/-- C6 witness: the windowed demo run with chunk size 2 over five rows emits
pauses exactly after its two full pages and not after the final short page,
and the flat demo run pauses after every chunk. -/
theorem c6_amended_pacing_witness :
    (stream_data_by_chunks demoDb ("tweets") (.dt ⟨0, some 0⟩) (.dt ⟨5, some 0⟩)
        truePred 2).items.map Prod.snd
      = (stream_data_by_chunks demoDb ("tweets") (.dt ⟨0, some 0⟩)
          (.dt ⟨5, some 0⟩) truePred 2).items.map (fun _ => true) ∧
    (stream_data_by_time_windows demoDb ("tweets") (.dt ⟨0, some 0⟩)
        (.dt ⟨300000000, some 0⟩) truePred 2 1).items.map Prod.snd
      = (stream_data_by_time_windows demoDb ("tweets") (.dt ⟨0, some 0⟩)
          (.dt ⟨300000000, some 0⟩) truePred 2 1).items.map
          (fun p => decide (p.1.chunk_size = 2)) :=
  ⟨c6_amended_pacing.1 demoDb ("tweets") (.dt ⟨0, some 0⟩) (.dt ⟨5, some 0⟩)
     truePred 2,
   c6_amended_pacing.2 demoDb ("tweets") ⟨0, some 0⟩ ⟨300000000, some 0⟩ truePred 2 1
     (by decide) (by decide) (by decide) rfl⟩

theorem tryFormats_err (s : String) (e0 : Err) :
    ∀ fmts : List String, tryFormats fmts s = .error e0 → e0 = .unparseableTime s := by
  intro fmts
  induction fmts with
  | nil =>
    intro h
    unfold tryFormats at h
    cases h
    rfl
  | cons fmt rest ih =>
    intro h
    unfold tryFormats at h
    rcases hp : strptime s fmt with _ | p
    · rw [hp] at h
      exact ih h
    · rw [hp] at h
      dsimp only at h
      exact absurd h (by simp)

theorem parse_time_err (inp : TimeInput) (e0 : Err) (h : parse_time inp = .error e0) :
    ∃ s, e0 = .unparseableTime s := by
  rcases inp with d | s
  · cases h
  · exact ⟨s, tryFormats_err s e0 TIME_FORMATS h⟩

/-- C7 counterexample: windowed-mode streaming of an unknown table over an
EMPTY range generates zero windows and never reaches the registry check — it
completes with no error (and no query), instead of raising the unknown-table
error the claim requires of both streaming modes. -/
theorem c7_counterexample_windowed_empty_range_unknown_table :
    stream_data_by_time_windows (fun _ => []) ("nosuchtable") (.dt ⟨0, some 0⟩)
        (.dt ⟨0, some 0⟩) truePred 10 60
      = ⟨0, [], none⟩ ∧
    (lookupTable ("nosuchtable")).isNone = true := by
  constructor
  · rfl
  · decide

/-- C7 amended: `get_table_count`, `fetch_data_chunk` and flat-mode streaming
raise the unknown-table error before any query for every table name outside
the registry, for every database; windowed-mode streaming raises it before
any query provided the parsed range is non-empty (with an empty range it
yields no chunks and no error); for table names in the registry the error is
never raised. -/
theorem c7_amended_unknown_table :
    (∀ (db : Database) (t : String) (st et : TimeInput) (pred : RowPred),
      (lookupTable t).isNone →
        get_table_count db t st et pred = .error (.unsupportedTable t)) ∧
    (∀ (db : Database) (t : String) (st et : TimeInput) (off lim : Nat)
        (pred : RowPred),
      (lookupTable t).isNone →
        fetch_data_chunk db t st et off lim pred = .error (.unsupportedTable t)) ∧
    (∀ (db : Database) (t : String) (st et : TimeInput) (pred : RowPred)
        (csize : Nat),
      (lookupTable t).isNone →
        stream_data_by_chunks db t st et pred csize
          = ⟨0, [], some (.unsupportedTable t)⟩) ∧
    (∀ (db : Database) (t : String) (s e : PyDatetime) (pred : RowPred)
        (csize : Nat) (interval : Int),
      (lookupTable t).isNone → s.tz = e.tz → dtKey s < dtKey e → 0 < interval →
        stream_data_by_time_windows db t (.dt s) (.dt e) pred csize interval
          = ⟨0, [], some (.unsupportedTable t)⟩) ∧
    (∀ (db : Database) (t : String) (st et : TimeInput) (pred : RowPred)
        (csize : Nat),
      (lookupTable t).isSome →
        (∀ x, get_table_count db t st et pred ≠ .error (.unsupportedTable x)) ∧
        (∀ x, (stream_data_by_chunks db t st et pred csize).err
          ≠ some (.unsupportedTable x))) ∧
    (∀ (db : Database) (t : String) (s e : PyDatetime) (pred : RowPred)
        (csize : Nat) (interval : Int) (x : String),
      (lookupTable t).isSome → 0 < csize → 0 < interval → s.tz = e.tz →
        (stream_data_by_time_windows db t (.dt s) (.dt e) pred csize
          interval).err ≠ some (.unsupportedTable x)) := by
  refine ⟨?_, ?_, ?_, ?_, ?_, ?_⟩
  · intro db t st et pred hun
    unfold get_table_count rangeRows
    simp only [hun, if_true]
  · intro db t st et off lim pred hun
    unfold fetch_data_chunk rangeRows
    simp only [hun, if_true]
  · intro db t st et pred csize hun
    unfold stream_data_by_chunks rangeRows
    simp only [hun, if_true]
  · intro db t s e pred csize interval hun htz hlt hi
    obtain ⟨ws, hws, hne, _⟩ :=
      windowsLoopAux_spec interval hi e (genFuel s e) s htz (by simp [genFuel])
    unfold stream_data_by_time_windows generate_time_windows parse_time
    simp only [hws]
    rcases hwc : ws with _ | ⟨w, rest⟩
    · rw [hwc] at hne
      have := hne.mp rfl
      omega
    · obtain ⟨a, b⟩ := w
      unfold windowsStreamLoop
      simp only [hun, if_true]
  · intro db t st et pred csize ht
    constructor
    · intro x
      unfold get_table_count rangeRows
      simp only [lookupTable_isNone_false t ht, Bool.false_eq_true, if_false]
      rcases hse : parse_time st with e0 | sdt <;>
        rcases hee : parse_time et with e1 | edt <;> dsimp only
      · obtain ⟨s0, rfl⟩ := parse_time_err st e0 hse
        intro hcon
        simp at hcon
      · obtain ⟨s0, rfl⟩ := parse_time_err st e0 hse
        intro hcon
        simp at hcon
      · obtain ⟨s1, rfl⟩ := parse_time_err et e1 hee
        intro hcon
        simp at hcon
      · intro hcon
        cases hcon
    · intro x
      unfold stream_data_by_chunks rangeRows
      simp only [lookupTable_isNone_false t ht, Bool.false_eq_true, if_false]
      rcases hse : parse_time st with e0 | sdt <;>
        rcases hee : parse_time et with e1 | edt <;> dsimp only
      · obtain ⟨s0, rfl⟩ := parse_time_err st e0 hse
        intro hcon
        simp at hcon
      · obtain ⟨s0, rfl⟩ := parse_time_err st e0 hse
        intro hcon
        simp at hcon
      · obtain ⟨s1, rfl⟩ := parse_time_err et e1 hee
        intro hcon
        simp at hcon
      · by_cases hz : (selectedRows (db t) (dtKey sdt) (dtKey edt) pred).length = 0
        · rw [if_pos hz]
          intro hcon
          simp at hcon
        · rw [if_neg hz]
          intro hcon
          simp at hcon
  · intro db t s e pred csize interval x ht hc hi htz
    obtain ⟨ws, hws, _⟩ :=
      windowsLoopAux_spec interval hi e (genFuel s e) s htz (by simp [genFuel])
    unfold stream_data_by_time_windows generate_time_windows parse_time
    simp only [hws]
    obtain ⟨oerr, _⟩ := windowsStreamLoop_spec db t pred csize hc ht ws 1 0
    rw [oerr]
    intro hcon
    cases hcon

/-- C7 witness: concrete unknown-table calls error out with zero queries, and
a known-table stream reports no unknown-table error. -/
theorem c7_amended_unknown_table_witness :
    get_table_count (fun _ => []) ("nosuchtable") (.dt ⟨0, some 0⟩)
        (.dt ⟨1, some 0⟩) truePred = .error (.unsupportedTable ("nosuchtable")) ∧
    stream_data_by_chunks (fun _ => []) ("nosuchtable") (.dt ⟨0, some 0⟩)
        (.dt ⟨1, some 0⟩) truePred 10
      = ⟨0, [], some (.unsupportedTable ("nosuchtable"))⟩ ∧
    stream_data_by_time_windows (fun _ => []) ("nosuchtable") (.dt ⟨0, some 0⟩)
        (.dt ⟨60000000, some 0⟩) truePred 10 60
      = ⟨0, [], some (.unsupportedTable ("nosuchtable"))⟩ ∧
    (stream_data_by_time_windows demoDb ("tweets") (.dt ⟨0, some 0⟩)
        (.dt ⟨300000000, some 0⟩) truePred 2 1).err
      ≠ some (.unsupportedTable ("tweets")) :=
  ⟨c7_amended_unknown_table.1 (fun _ => []) ("nosuchtable") (.dt ⟨0, some 0⟩)
     (.dt ⟨1, some 0⟩) truePred (by decide),
   c7_amended_unknown_table.2.2.1 (fun _ => []) ("nosuchtable") (.dt ⟨0, some 0⟩)
     (.dt ⟨1, some 0⟩) truePred 10 (by decide),
   c7_amended_unknown_table.2.2.2.1 (fun _ => []) ("nosuchtable") ⟨0, some 0⟩
     ⟨60000000, some 0⟩ truePred 10 60 (by decide) rfl (by decide) (by decide),
   c7_amended_unknown_table.2.2.2.2.2 demoDb ("tweets") ⟨0, some 0⟩
     ⟨300000000, some 0⟩ truePred 2 1 ("tweets") (by decide) (by decide)
     (by decide) rfl⟩

/-- C9: constructing the fetcher with a falsy option (0 or None) silently
replaces it with the default — chunk size 1000, window duration 60 minutes,
pool bound 3 — while a negative value is kept as given; no error is raised
(construction is total). -/
theorem c9_init_falsy_defaults :
    (∀ ti mc : Option Int, (initFetcher none ti mc).chunk_size = 1000 ∧
      (initFetcher (some 0) ti mc).chunk_size = 1000) ∧
    (∀ c mc : Option Int, (initFetcher c none mc).time_interval_minutes = 60 ∧
      (initFetcher c (some 0) mc).time_interval_minutes = 60) ∧
    (∀ c ti : Option Int, (initFetcher c ti none).max_connections = 3 ∧
      (initFetcher c ti (some 0)).max_connections = 3) ∧
    (∀ (v : Int) (ti mc : Option Int), v < 0 →
      (initFetcher (some v) ti mc).chunk_size = v) ∧
    (∀ (v : Int) (c mc : Option Int), v < 0 →
      (initFetcher c (some v) mc).time_interval_minutes = v) ∧
    (∀ (v : Int) (c ti : Option Int), v < 0 →
      (initFetcher c ti (some v)).max_connections = v) := by
  refine ⟨?_, ?_, ?_, ?_, ?_, ?_⟩
  · intro ti mc
    exact ⟨rfl, rfl⟩
  · intro c mc
    exact ⟨rfl, rfl⟩
  · intro c ti
    exact ⟨rfl, rfl⟩
  · intro v ti mc hv
    unfold initFetcher pyOrInt
    simp only
    rw [if_neg (by omega)]
  · intro v c mc hv
    unfold initFetcher pyOrInt
    simp only
    rw [if_neg (by omega)]
  · intro v c ti hv
    unfold initFetcher pyOrInt
    simp only
    rw [if_neg (by omega)]

/-- C9 witness: concrete falsy and negative constructions. -/
theorem c9_init_falsy_defaults_witness :
    (initFetcher none (some 7) (some 7)).chunk_size = 1000 ∧
    (initFetcher (some 0) (some 7) (some 7)).chunk_size = 1000 ∧
    (initFetcher (some 7) none (some 7)).time_interval_minutes = 60 ∧
    (initFetcher (some 7) (some 0) (some 7)).max_connections = 7 ∧
    (initFetcher (some (-5)) (some 7) (some 7)).chunk_size = -5 ∧
    (initFetcher (some 7) (some (-5)) (some 7)).time_interval_minutes = -5 ∧
    (initFetcher (some 7) (some 7) (some (-5))).max_connections = -5 :=
  ⟨(c9_init_falsy_defaults.1 (some 7) (some 7)).1,
   (c9_init_falsy_defaults.1 (some 7) (some 7)).2,
   (c9_init_falsy_defaults.2.1 (some 7) (some 7)).1,
   by decide,
   c9_init_falsy_defaults.2.2.2.1 (-5) (some 7) (some 7) (by norm_num),
   c9_init_falsy_defaults.2.2.2.2.1 (-5) (some 7) (some 7) (by norm_num),
   c9_init_falsy_defaults.2.2.2.2.2 (-5) (some 7) (some 7) (by norm_num)⟩

/-- C10: in windowed mode, every yielded envelope's `total_records_so_far` is
a global running total across the whole streaming call: the k-th envelope
carries the sum of the `chunk_size` fields of the first k+1 envelopes, so the
field is strictly increasing across the sequence; `window_index` is 1-based
and non-decreasing across the sequence; and `chunk_offset` is 0 on the first
envelope and again whenever the window index changes (the offset cursor is
reset at each window boundary). -/
theorem c10_windowed_running_totals (db : Database) (t : String) (s e : PyDatetime)
    (pred : RowPred) (csize : Nat) (interval : Int)
    (hc : 0 < csize) (ht : (lookupTable t).isSome) (hi : 0 < interval)
    (htz : s.tz = e.tz) :
    (∀ k (hk : k < (chunksOf (stream_data_by_time_windows db t (.dt s) (.dt e)
        pred csize interval)).length),
      ((chunksOf (stream_data_by_time_windows db t (.dt s) (.dt e) pred csize
          interval)).get ⟨k, hk⟩).total_records_so_far
        = (((chunksOf (stream_data_by_time_windows db t (.dt s) (.dt e) pred csize
            interval)).take (k + 1)).map (fun c => c.chunk_size)).sum) ∧
    List.Pairwise (fun c1 c2 => c1.total_records_so_far < c2.total_records_so_far)
      (chunksOf (stream_data_by_time_windows db t (.dt s) (.dt e) pred csize
        interval)) ∧
    (∀ c ∈ chunksOf (stream_data_by_time_windows db t (.dt s) (.dt e) pred csize
        interval), 1 ≤ c.window_index) ∧
    List.Pairwise (fun c1 c2 => c1.window_index ≤ c2.window_index)
      (chunksOf (stream_data_by_time_windows db t (.dt s) (.dt e) pred csize
        interval)) ∧
    (∀ c, (chunksOf (stream_data_by_time_windows db t (.dt s) (.dt e) pred csize
        interval)).head? = some c → c.chunk_offset = 0) ∧
    List.Chain' (fun c1 c2 => c1.window_index = c2.window_index ∨ c2.chunk_offset = 0)
      (chunksOf (stream_data_by_time_windows db t (.dt s) (.dt e) pred csize
        interval)) := by
  obtain ⟨ws, hws, _⟩ :=
    windowsLoopAux_spec interval hi e (genFuel s e) s htz (by simp [genFuel])
  have hstream : stream_data_by_time_windows db t (.dt s) (.dt e) pred csize interval
      = windowsStreamLoop db t pred csize ws 1 0 := by
    unfold stream_data_by_time_windows generate_time_windows parse_time
    simp only [hws]
  rw [hstream]
  obtain ⟨_, _, orun, omem, opw, och, ohd⟩ :=
    windowsStreamLoop_spec db t pred csize hc ht ws 1 0
  have hsz : ∀ c ∈ chunksOf (windowsStreamLoop db t pred csize ws 1 0),
      1 ≤ c.chunk_size := by
    intro c hcm
    obtain ⟨p, hp, rfl⟩ := List.mem_map.mp hcm
    exact (omem p hp).2.1
  refine ⟨?_, ?_, ?_, opw, ohd, och⟩
  · intro k hk
    have h := runningFromW_get _ 0 orun k hk
    simpa using h
  · exact (runningFromW_mono _ 0 orun hsz).2
  · intro c hcm
    obtain ⟨p, hp, rfl⟩ := List.mem_map.mp hcm
    exact (omem p hp).1

/-- C10 witness: the five-row demo over a five-minute range with one-minute
windows and chunk size 2 instantiates every conjunct. -/
theorem c10_windowed_running_totals_witness :
    (0 : Nat) < 2 ∧
    (∀ k (hk : k < (chunksOf (stream_data_by_time_windows demoDb ("tweets")
        (.dt ⟨0, some 0⟩) (.dt ⟨300000000, some 0⟩) truePred 2 1)).length),
      ((chunksOf (stream_data_by_time_windows demoDb ("tweets") (.dt ⟨0, some 0⟩)
          (.dt ⟨300000000, some 0⟩) truePred 2 1)).get ⟨k, hk⟩).total_records_so_far
        = (((chunksOf (stream_data_by_time_windows demoDb ("tweets")
            (.dt ⟨0, some 0⟩) (.dt ⟨300000000, some 0⟩) truePred 2 1)).take
            (k + 1)).map (fun c => c.chunk_size)).sum) ∧
    List.Pairwise (fun c1 c2 => c1.total_records_so_far < c2.total_records_so_far)
      (chunksOf (stream_data_by_time_windows demoDb ("tweets") (.dt ⟨0, some 0⟩)
        (.dt ⟨300000000, some 0⟩) truePred 2 1)) :=
  ⟨by decide,
   (c10_windowed_running_totals demoDb ("tweets") ⟨0, some 0⟩ ⟨300000000, some 0⟩
     truePred 2 1 (by decide) (by decide) (by decide) rfl).1,
   (c10_windowed_running_totals demoDb ("tweets") ⟨0, some 0⟩ ⟨300000000, some 0⟩
     truePred 2 1 (by decide) (by decide) (by decide) rfl).2.1⟩

theorem decodeRow_encodeRow (r : Row) : decodeRow (encodeRow r) = some r := rfl

theorem mapM_decode_encode {α : Type} (enc : α → JVal) (dec : JVal → Option α)
    (h : ∀ x, dec (enc x) = some x) :
    ∀ l : List α, (l.map enc).mapM dec = some l := by
  intro l
  induction l with
  | nil => rfl
  | cons a t ih =>
    simp only [List.map_cons, List.mapM_cons, h a, ih, Option.pure_def,
      Option.bind_eq_bind, Option.some_bind]

theorem decodeWindowChunk_encodeWindowChunk (c : WindowChunk) :
    decodeWindowChunk (encodeWindowChunk c) = some c := by
  show (match (c.data.map encodeRow).mapM decodeRow with
    | some rows => some ⟨((c.window_index : Int)).toNat,
        ⟨c.window_start.wall, c.window_start.tz⟩, ⟨c.window_end.wall, c.window_end.tz⟩,
        ((c.chunk_offset : Int)).toNat, ((c.chunk_size : Int)).toNat,
        ((c.total_records_so_far : Int)).toNat, rows, c.table_name, c.time_field⟩
    | none => none) = some c
  rw [mapM_decode_encode encodeRow decodeRow decodeRow_encodeRow c.data]
  simp

theorem decodeFlatChunk_encodeFlatChunk (c : FlatChunk) :
    decodeFlatChunk (encodeFlatChunk c) = some c := by
  show (match (c.data.map encodeRow).mapM decodeRow with
    | some rows => some ⟨((c.chunk_index : Int)).toNat, ((c.chunk_offset : Int)).toNat,
        ((c.chunk_size : Int)).toNat, ((c.total_count : Int)).toNat, c.progress, rows,
        c.table_name, c.time_field⟩
    | none => none) = some c
  rw [mapM_decode_encode encodeRow decodeRow decodeRow_encodeRow c.data]
  simp

/-- C8: exporting any chunk stream in line-delimited format writes exactly
one serialized envelope per line (as many lines as chunks), and re-reading
(deserializing) every line recovers the original sequence of chunk envelopes
field for field, in both windowed and flat mode. -/
theorem c8_jsonl_roundtrip :
    (∀ out : StreamOut WindowChunk,
      (export_jsonl_windows out).length = (chunksOf out).length ∧
      (export_jsonl_windows out).mapM decodeWindowChunk = some (chunksOf out)) ∧
    (∀ out : StreamOut FlatChunk,
      (export_jsonl_flat out).length = (chunksOf out).length ∧
      (export_jsonl_flat out).mapM decodeFlatChunk = some (chunksOf out)) := by
  constructor
  · intro out
    refine ⟨List.length_map _ _, ?_⟩
    exact mapM_decode_encode encodeWindowChunk decodeWindowChunk
      decodeWindowChunk_encodeWindowChunk (chunksOf out)
  · intro out
    refine ⟨List.length_map _ _, ?_⟩
    exact mapM_decode_encode encodeFlatChunk decodeFlatChunk
      decodeFlatChunk_encodeFlatChunk (chunksOf out)

